import Mathlib

/-!
Verification of the stock performance comparison tool (frontend React app and
its API service layer) against its natural-language specification.

The JavaScript sources are shallowly embedded: JS objects and Maps become
insertion-ordered association lists (`Obj`), JS numbers become rationals
(`Rat`; every verified property is an order or structure property that is
insensitive to floating-point rounding), JS strings become `String`, and
`Math.random()` is determinized into an explicit draw function supplied as a
parameter.
-/

/-- A JavaScript object (or Map) with string keys: an insertion-ordered
association list.  Assigning to an existing key updates the value in place
(keeping the key position, as JS does); assigning to a fresh key appends. -/
abbrev Obj (α : Type) : Type := List (String × α)

/-- Property read: the first (hence only, keys being unique in JS) binding. -/
def objGet : Obj α → String → Option α
  | [], _ => none
  | (k', v) :: rest, k => if k' = k then some v else objGet rest k

/-- Property write, modelling JS assignment semantics. -/
def objSet : Obj α → String → α → Obj α
  | [], k, v => [(k, v)]
  | (k', v') :: rest, k, v =>
      if k' = k then (k, v) :: rest else (k', v') :: objSet rest k v

/-- The list of keys, in insertion order. -/
def objKeys (m : Obj α) : List String := m.map Prod.fst

/-- The list of values, in insertion order (JS Map.values()). -/
def objValues (m : Obj α) : List α := m.map Prod.snd

theorem objGet_objSet_self (m : Obj α) (k : String) (v : α) :
    objGet (objSet m k v) k = some v := by
  induction m with
  | nil => simp [objSet, objGet]
  | cons hd tl ih =>
      obtain ⟨k', v'⟩ := hd
      by_cases h : k' = k <;> simp [objSet, objGet, h, ih]

theorem objGet_objSet_ne (m : Obj α) {k k' : String} (v : α) (h : k' ≠ k) :
    objGet (objSet m k v) k' = objGet m k' := by
  have h' : k ≠ k' := Ne.symm h
  induction m with
  | nil => simp [objSet, objGet, h']
  | cons hd tl ih =>
      obtain ⟨k'', v''⟩ := hd
      by_cases h2 : k'' = k
      · subst h2
        simp [objSet, objGet, h']
      · simp [objSet, objGet, h2, ih]

theorem mem_objKeys_objSet (m : Obj α) (k a : String) (v : α) :
    a ∈ objKeys (objSet m k v) ↔ a = k ∨ a ∈ objKeys m := by
  induction m with
  | nil => simp [objSet, objKeys]
  | cons hd tl ih =>
      obtain ⟨k', v'⟩ := hd
      by_cases h : k' = k
      · subst h
        simp [objSet, objKeys]
      · simp only [objSet, if_neg h, objKeys, List.map_cons, List.mem_cons] at ih ⊢
        tauto

theorem objKeys_nodup_objSet (m : Obj α) (k : String) (v : α)
    (h : (objKeys m).Nodup) : (objKeys (objSet m k v)).Nodup := by
  induction m with
  | nil => simp [objSet, objKeys]
  | cons hd tl ih =>
      obtain ⟨k', v'⟩ := hd
      simp only [objKeys, List.map_cons, List.nodup_cons] at h
      by_cases h2 : k' = k
      · subst h2
        simpa [objSet, objKeys] using h
      · simp only [objSet, if_neg h2, objKeys, List.map_cons, List.nodup_cons]
        refine ⟨fun hc => ?_, ih h.2⟩
        rcases (mem_objKeys_objSet tl k k' v).mp hc with h3 | h3
        · exact h2 h3
        · exact h.1 h3

theorem objGet_isSome_iff_mem_objKeys (m : Obj α) (k : String) :
    (objGet m k).isSome ↔ k ∈ objKeys m := by
  induction m with
  | nil => simp [objGet, objKeys]
  | cons hd tl ih =>
      obtain ⟨k', v'⟩ := hd
      simp only [objGet, objKeys, List.map_cons, List.mem_cons]
      by_cases h : k' = k
      · simp [h]
      · simp only [if_neg h, ih, objKeys]
        constructor
        · exact Or.inr
        · rintro (h2 | h2)
          · exact absurd h2.symm h
          · exact h2

theorem objGet_eq_some_of_mem (m : Obj α) (k : String) (v : α)
    (hnd : (objKeys m).Nodup) (hmem : (k, v) ∈ m) : objGet m k = some v := by
  induction m with
  | nil => simp at hmem
  | cons hd tl ih =>
      obtain ⟨k', v'⟩ := hd
      simp only [objKeys, List.map_cons, List.nodup_cons] at hnd
      rcases List.mem_cons.mp hmem with h | h
      · rw [Prod.mk.injEq] at h
        simp [objGet, h.1.symm, h.2]
      · have hk : k' ≠ k := by
          intro he
          subst he
          exact hnd.1 (List.mem_map.mpr ⟨(k', v), h, rfl⟩)
        simp [objGet, hk, ih hnd.2 h]

/-- Model of the JavaScript string method split with separator comma:
splits at every comma, keeping empty pieces (so the result of splitting the
empty string is a single empty piece, as in JS). -/
def splitCommaAux : List Char → List Char → List String
  | [], acc => [String.mk acc.reverse]
  | c :: cs, acc =>
      if c = ',' then String.mk acc.reverse :: splitCommaAux cs []
      else splitCommaAux cs (c :: acc)

/-- JS string split on a comma. -/
def jsSplitComma (s : String) : List String := splitCommaAux s.data []

/-- Model of the JavaScript string method trim: strip leading and trailing
whitespace characters. -/
def jsTrim (s : String) : String :=
  String.mk (((s.data.dropWhile Char.isWhitespace).reverse.dropWhile
    Char.isWhitespace).reverse)

/-- Model of the JavaScript string method toUpperCase: uppercase each
character. -/
def jsToUpperCase (s : String) : String := String.mk (s.data.map Char.toUpper)

example : jsSplitComma "" = [""] := by decide
example : jsSplitComma "a,b" = ["a", "b"] := by decide
example : jsSplitComma "a," = ["a", ""] := by decide
example : jsToUpperCase (jsTrim " ab ") = "AB" := by decide

/-! ## Mock correlation matrix (Results page mock data generator)

Embedding of the correlation-matrix construction in generateMockData:
nested forEach loops over the tickers with their indices.  Each pair of
indices consumes one Math.random() value, modelled by the draw function. -/

/-- JS Math.min on two numbers. -/
def jsMin (a b : ℚ) : ℚ := if a ≤ b then a else b

/-- JS Math.max on two numbers. -/
def jsMax (a b : ℚ) : ℚ := if a ≤ b then b else a

/-- The clamped random correlation value the generator produces for one
off-diagonal pair: Math.max(-1, Math.min(1, r * 1.6 - 0.3)) where r is the
Math.random() draw. -/
def boundedCorr (r : ℚ) : ℚ := jsMax (-1) (jsMin 1 (r * (8 / 5) - 3 / 10))

/-- A correlation matrix object: ticker → (ticker → coefficient). -/
abbrev CorrMatrix : Type := Obj (Obj ℚ)

/-- The JS statement m[t1][t2] = v.  In every executed path of the source
the outer property m[t1] already exists; reading it with a default empty
object keeps the definition total without changing those paths. -/
def setCell (m : CorrMatrix) (t1 t2 : String) (v : ℚ) : CorrMatrix :=
  objSet m t1 (objSet ((objGet m t1).getD []) t2 v)

/-- Reading m[t1]?.[t2] as an optional value. -/
def corrLookup (m : CorrMatrix) (t1 t2 : String) : Option ℚ :=
  (objGet m t1).bind (fun inner => objGet inner t2)

/-- Body of the inner forEach of the generator, for outer ticker t1 at
index i and inner ticker t2 at index j. -/
def mockCorrBody (draw : Nat → Nat → ℚ) (i : Nat) (t1 : String)
    (m : CorrMatrix) (j : Nat) (t2 : String) : CorrMatrix :=
  if i = j then setCell m t1 t2 1
  else if i < j then
    let b := boundedCorr (draw i j)
    let m1 := setCell m t1 t2 b
    let m2 := if (objGet m1 t2).isSome then m1 else objSet m1 t2 []
    setCell m2 t2 t1 b
  else m

/-- The inner forEach: fold the body over the remaining inner tickers,
j counting the current inner index. -/
def mockCorrInner (draw : Nat → Nat → ℚ) (i : Nat) (t1 : String) :
    List String → Nat → CorrMatrix → CorrMatrix
  | [], _, m => m
  | t2 :: rest, j, m => mockCorrInner draw i t1 rest (j + 1) (mockCorrBody draw i t1 m j t2)

/-- The outer forEach: for each outer ticker, first reset m[t1] to the empty
object, then run the inner loop over the full ticker list. -/
def mockCorrOuter (draw : Nat → Nat → ℚ) (tickers : List String) :
    List String → Nat → CorrMatrix → CorrMatrix
  | [], _, m => m
  | t1 :: rest, i, m =>
      mockCorrOuter draw tickers rest (i + 1)
        (mockCorrInner draw i t1 tickers 0 (objSet m t1 []))

/-- The correlation matrix produced by generateMockData for the given ticker
list, with draw determinizing the Math.random() calls. -/
def generateMockCorrelation (tickers : List String) (draw : Nat → Nat → ℚ) :
    CorrMatrix :=
  mockCorrOuter draw tickers tickers 0 []

example :
    corrLookup (generateMockCorrelation ["A", "B"] (fun _ _ => 1 / 2)) "A" "B" =
      some (1 / 2) := by
  norm_num +decide [generateMockCorrelation, mockCorrOuter, mockCorrInner,
    mockCorrBody, setCell, corrLookup, objGet, objSet, boundedCorr, jsMin, jsMax]
example :
    corrLookup (generateMockCorrelation ["A", "B"] (fun _ _ => 1 / 2)) "B" "A" =
      none := by
  norm_num +decide [generateMockCorrelation, mockCorrOuter, mockCorrInner,
    mockCorrBody, setCell, corrLookup, objGet, objSet, boundedCorr, jsMin, jsMax]
example :
    corrLookup (generateMockCorrelation ["A", "B"] (fun _ _ => 1 / 2)) "B" "B" =
      some 1 := by
  norm_num +decide [generateMockCorrelation, mockCorrOuter, mockCorrInner,
    mockCorrBody, setCell, corrLookup, objGet, objSet, boundedCorr, jsMin, jsMax]

/-! ## Range invariant of the generated correlation matrix -/

/-- Every coefficient stored in the matrix lies in the closed interval
[-1, 1]. -/
def corrInRange (m : CorrMatrix) : Prop :=
  ∀ t1 t2 v, corrLookup m t1 t2 = some v → -1 ≤ v ∧ v ≤ 1

theorem boundedCorr_range (r : ℚ) : -1 ≤ boundedCorr r ∧ boundedCorr r ≤ 1 := by
  unfold boundedCorr jsMax jsMin
  by_cases h1 : (1 : ℚ) ≤ r * (8 / 5) - 3 / 10
  · simp only [if_pos h1]
    norm_num
  · simp only [if_neg h1]
    by_cases h2 : (-1 : ℚ) ≤ r * (8 / 5) - 3 / 10
    · simp only [if_pos h2]
      exact ⟨h2, le_of_lt (not_le.mp h1)⟩
    · simp only [if_neg h2]
      norm_num

theorem corrInRange_setCell {m : CorrMatrix} {v : ℚ} (t1 t2 : String)
    (h : corrInRange m) (hv : -1 ≤ v ∧ v ≤ 1) :
    corrInRange (setCell m t1 t2 v) := by
  intro a b w hw
  unfold setCell corrLookup at hw
  by_cases ha : a = t1
  · subst ha
    rw [objGet_objSet_self] at hw
    simp only [Option.some_bind] at hw
    by_cases hb : b = t2
    · subst hb
      rw [objGet_objSet_self] at hw
      cases hw
      exact hv
    · rw [objGet_objSet_ne _ _ hb] at hw
      cases he : objGet m a with
      | none => rw [he] at hw; simp [Option.getD, objGet] at hw
      | some inner =>
          rw [he] at hw
          exact h a b w (by rw [corrLookup, he, Option.some_bind]; exact hw)
  · rw [objGet_objSet_ne _ _ ha] at hw
    exact h a b w hw

theorem corrInRange_objSet_empty {m : CorrMatrix} (t : String)
    (h : corrInRange m) : corrInRange (objSet m t []) := by
  intro a b w hw
  unfold corrLookup at hw
  by_cases ha : a = t
  · subst ha
    rw [objGet_objSet_self] at hw
    simp [objGet] at hw
  · rw [objGet_objSet_ne _ _ ha] at hw
    exact h a b w hw

theorem corrInRange_mockCorrBody {m : CorrMatrix} (draw : Nat → Nat → ℚ)
    (i j : Nat) (t1 t2 : String) (h : corrInRange m) :
    corrInRange (mockCorrBody draw i t1 m j t2) := by
  unfold mockCorrBody
  split
  · exact corrInRange_setCell t1 t2 h (by norm_num)
  · split
    · refine corrInRange_setCell t2 t1 ?_ (boundedCorr_range _)
      split
      · exact corrInRange_setCell t1 t2 h (boundedCorr_range _)
      · exact corrInRange_objSet_empty t2
          (corrInRange_setCell t1 t2 h (boundedCorr_range _))
    · exact h

theorem corrInRange_mockCorrInner {draw : Nat → Nat → ℚ} {i : Nat}
    {t1 : String} :
    ∀ (l : List String) (j : Nat) (m : CorrMatrix), corrInRange m →
      corrInRange (mockCorrInner draw i t1 l j m)
  | [], _, _, h => h
  | _ :: rest, j, m, h =>
      corrInRange_mockCorrInner rest (j + 1)
        (mockCorrBody draw i t1 m j _) (corrInRange_mockCorrBody draw i j t1 _ h)

theorem corrInRange_mockCorrOuter {draw : Nat → Nat → ℚ}
    {tickers : List String} :
    ∀ (l : List String) (i : Nat) (m : CorrMatrix), corrInRange m →
      corrInRange (mockCorrOuter draw tickers l i m)
  | [], _, _, h => h
  | t1 :: rest, i, m, h =>
      corrInRange_mockCorrOuter rest (i + 1) _
        (corrInRange_mockCorrInner tickers 0 _ (corrInRange_objSet_empty t1 h))

/-! ## Diagonal invariant of the generated correlation matrix -/

theorem corrLookup_setCell_self (m : CorrMatrix) (t1 t2 : String) (v : ℚ) :
    corrLookup (setCell m t1 t2 v) t1 t2 = some v := by
  unfold corrLookup setCell
  rw [objGet_objSet_self, Option.some_bind, objGet_objSet_self]

theorem corrLookup_setCell_ne_outer (m : CorrMatrix) (t1 t2 a b : String)
    (v : ℚ) (h : a ≠ t1) :
    corrLookup (setCell m t1 t2 v) a b = corrLookup m a b := by
  unfold corrLookup setCell
  rw [objGet_objSet_ne _ _ h]

/-- Writing a cell whose inner key differs from b preserves the (t1, b)
entry, provided the outer row t1 already exists. -/
theorem corrLookup_setCell_ne_inner (m : CorrMatrix) (t1 t2 b : String)
    (v : ℚ) (inner : Obj ℚ) (hrow : objGet m t1 = some inner) (hb : b ≠ t2) :
    corrLookup (setCell m t1 t2 v) t1 b = corrLookup m t1 b := by
  unfold corrLookup setCell
  rw [objGet_objSet_self, Option.some_bind, hrow]
  simp only [Option.getD_some, Option.some_bind]
  rw [objGet_objSet_ne _ _ hb]

theorem diag_objSet_empty (m : CorrMatrix) {a t : String} (h : t ≠ a) :
    corrLookup (objSet m t []) a a = corrLookup m a a := by
  unfold corrLookup
  rw [objGet_objSet_ne _ _ (Ne.symm h)]

/-- An established diagonal entry exhibits its row and inner cell. -/
theorem diag_row_exists {m : CorrMatrix} {a : String}
    (hd : corrLookup m a a = some 1) :
    ∃ inner, objGet m a = some inner ∧ objGet inner a = some 1 := by
  unfold corrLookup at hd
  cases he : objGet m a with
  | none => rw [he] at hd; simp at hd
  | some inner =>
      rw [he, Option.some_bind] at hd
      exact ⟨inner, rfl, hd⟩

/-- A cell write that is not the (a, a) cell itself preserves the (a, a)
diagonal entry. -/
theorem diag_setCell {m : CorrMatrix} (t1 t2 a : String) (v : ℚ)
    (hna : ¬(t1 = a ∧ t2 = a)) (hd : corrLookup m a a = some 1) :
    corrLookup (setCell m t1 t2 v) a a = some 1 := by
  by_cases h1 : t1 = a
  · have h2 : t2 ≠ a := fun hh => hna ⟨h1, hh⟩
    obtain ⟨inner, hrow, _⟩ := diag_row_exists hd
    subst h1
    rw [corrLookup_setCell_ne_inner m t1 t2 t1 v inner hrow (Ne.symm h2)]
    exact hd
  · rw [corrLookup_setCell_ne_outer m t1 t2 a a v (Ne.symm h1)]
    exact hd

/-- Writing the constant 1 into any cell preserves the (a, a) = 1 entry. -/
theorem diag_setCell_one {m : CorrMatrix} (t1 t2 a : String)
    (hd : corrLookup m a a = some 1) :
    corrLookup (setCell m t1 t2 1) a a = some 1 := by
  by_cases h : t1 = a ∧ t2 = a
  · obtain ⟨rfl, rfl⟩ := h
    exact corrLookup_setCell_self m _ _ 1
  · exact diag_setCell t1 t2 a 1 h hd

/-- The guarded creation of a missing row preserves the diagonal entry. -/
theorem diag_guard {m : CorrMatrix} (t2 a : String)
    (hd : corrLookup m a a = some 1) :
    corrLookup (if (objGet m t2).isSome = true then m else objSet m t2 [])
      a a = some 1 := by
  split
  · exact hd
  · next hg =>
      have h2 : t2 ≠ a := by
        intro hh
        subst hh
        obtain ⟨inner, hrow, _⟩ := diag_row_exists hd
        rw [hrow] at hg
        simp at hg
      rw [diag_objSet_empty m h2]
      exact hd

/-- One inner-loop body step preserves an established diagonal entry, as
long as it is not an off-diagonal step whose both tickers equal a. -/
theorem diag_mockCorrBody (draw : Nat → Nat → ℚ) (i j : Nat)
    (t1 t2 a : String) (m : CorrMatrix)
    (hcond : i < j → ¬(t1 = a ∧ t2 = a))
    (hd : corrLookup m a a = some 1) :
    corrLookup (mockCorrBody draw i t1 m j t2) a a = some 1 := by
  unfold mockCorrBody
  split
  · exact diag_setCell_one t1 t2 a hd
  · split
    · next hij =>
        have hna : ¬(t1 = a ∧ t2 = a) := hcond hij
        have h1 : t2 = a → t1 ≠ a := fun h2 h1 => hna ⟨h1, h2⟩
        refine diag_setCell t2 t1 a _ (fun hh => hna ⟨hh.2, hh.1⟩) ?_
        exact diag_guard t2 a (diag_setCell t1 t2 a _ hna hd)
    · exact hd

/-- The inner loop preserves an established (a, a) = 1 entry when every
element it still has to process at an index beyond the outer index differs
from a. -/
theorem diag_mockCorrInner_preserve (draw : Nat → Nat → ℚ) (i : Nat)
    (t1 a : String) :
    ∀ (l : List String) (j : Nat) (m : CorrMatrix),
      (∀ t2 ∈ l, t1 = a → t2 ≠ a) →
      corrLookup m a a = some 1 →
      corrLookup (mockCorrInner draw i t1 l j m) a a = some 1
  | [], _, _, _, hd => hd
  | t2 :: rest, j, m, hl, hd => by
      refine diag_mockCorrInner_preserve draw i t1 a rest (j + 1) _
        (fun u hu => hl u (List.mem_cons_of_mem _ hu)) ?_
      refine diag_mockCorrBody draw i j t1 t2 a m ?_ hd
      intro _ hh
      exact hl t2 (List.mem_cons_self _ _) hh.1 hh.2

/-- Running the inner loop for outer ticker a at outer index i over the
list A ++ a :: B, starting at inner index j with i = j + A.length,
establishes the diagonal entry (a, a) = 1 provided a does not occur in B. -/
theorem diag_mockCorrInner_establish (draw : Nat → Nat → ℚ) (a : String) :
    ∀ (A B : List String) (j : Nat) (m : CorrMatrix), a ∉ B →
      corrLookup (mockCorrInner draw (j + A.length) a (A ++ a :: B) j m) a a =
        some 1
  | [], B, j, m, hB => by
      simp only [List.nil_append, List.length_nil, Nat.add_zero, mockCorrInner]
      refine diag_mockCorrInner_preserve draw j a a B (j + 1) _
        (fun u hu _ hua => hB (hua ▸ hu)) ?_
      have hbody : mockCorrBody draw j a m j a = setCell m a a 1 := by
        unfold mockCorrBody
        rw [if_pos rfl]
      rw [hbody]
      exact corrLookup_setCell_self m a a 1
  | t0 :: A, B, j, m, hB => by
      simp only [List.cons_append, mockCorrInner]
      have hbody : mockCorrBody draw (j + (t0 :: A).length) a m j t0 = m := by
        unfold mockCorrBody
        rw [if_neg (by simp), if_neg (by simp)]
      rw [hbody]
      have harith : j + (t0 :: A).length = (j + 1) + A.length := by
        simp [List.length_cons]
        omega
      rw [harith]
      exact diag_mockCorrInner_establish draw a A B (j + 1) m hB

/-- The outer loop preserves an established (a, a) = 1 entry when a does
not occur among the outer tickers it still has to process. -/
theorem diag_mockCorrOuter_preserve (draw : Nat → Nat → ℚ)
    (tickers : List String) (a : String) :
    ∀ (l : List String) (i : Nat) (m : CorrMatrix), a ∉ l →
      corrLookup m a a = some 1 →
      corrLookup (mockCorrOuter draw tickers l i m) a a = some 1
  | [], _, _, _, hd => hd
  | t1 :: rest, i, m, hl, hd => by
      have h1 : t1 ≠ a := fun hh => hl (hh ▸ List.mem_cons_self _ _)
      refine diag_mockCorrOuter_preserve draw tickers a rest (i + 1) _
        (fun hu => hl (List.mem_cons_of_mem _ hu)) ?_
      refine diag_mockCorrInner_preserve draw i t1 a tickers 0 _
        (fun u _ ht1 => absurd ht1 h1) ?_
      rw [diag_objSet_empty m h1]
      exact hd

/-- Splitting the outer loop over an append. -/
theorem mockCorrOuter_append (draw : Nat → Nat → ℚ) (tickers : List String) :
    ∀ (A C : List String) (i : Nat) (m : CorrMatrix),
      mockCorrOuter draw tickers (A ++ C) i m =
        mockCorrOuter draw tickers C (i + A.length)
          (mockCorrOuter draw tickers A i m)
  | [], C, i, m => by simp [mockCorrOuter]
  | t1 :: A, C, i, m => by
      simp only [List.cons_append, List.append_eq, mockCorrOuter]
      rw [mockCorrOuter_append draw tickers A C (i + 1)]
      congr 1
      simp [List.length_cons]
      omega

/-- Any member of a list admits a last-occurrence decomposition. -/
theorem exists_last_occurrence {a : String} :
    ∀ {l : List String}, a ∈ l → ∃ A B, l = A ++ a :: B ∧ a ∉ B := by
  intro l hl
  induction l with
  | nil => simp at hl
  | cons hd tl ih =>
      by_cases htl : a ∈ tl
      · obtain ⟨A, B, hAB, hB⟩ := ih htl
        exact ⟨hd :: A, B, by rw [hAB]; rfl, hB⟩
      · have hhd : hd = a := by
          rcases List.mem_cons.mp hl with h | h
          · exact h.symm
          · exact absurd h htl
        exact ⟨[], tl, by simp [hhd], htl⟩

/-- C4: for every ticker that appears in the correlation matrix produced by
the mock generator, the diagonal entry for that ticker is exactly 1.0. -/
theorem generateMockCorrelation_diag_one (tickers : List String)
    (draw : Nat → Nat → ℚ) (t : String) (ht : t ∈ tickers) :
    corrLookup (generateMockCorrelation tickers draw) t t = some 1 := by
  obtain ⟨A, B, hAB, hB⟩ := exists_last_occurrence ht
  unfold generateMockCorrelation
  rw [hAB]
  rw [mockCorrOuter_append draw (A ++ t :: B) A (t :: B) 0 []]
  simp only [mockCorrOuter]
  refine diag_mockCorrOuter_preserve draw _ t B _ _ hB ?_
  exact diag_mockCorrInner_establish draw t A B 0 _ hB

/-- C4 witness: the theorem applied at a concrete input. -/
theorem generateMockCorrelation_diag_one_witness :
    "A" ∈ ["A", "B"] ∧
      corrLookup (generateMockCorrelation ["A", "B"] (fun _ _ => 0)) "A" "A" =
        some 1 :=
  ⟨by decide,
    generateMockCorrelation_diag_one ["A", "B"] (fun _ _ => 0) "A" (by decide)⟩

/-- C5: every correlation coefficient present in a produced correlation
matrix lies in the closed interval [-1, 1]. -/
theorem generateMockCorrelation_range (tickers : List String)
    (draw : Nat → Nat → ℚ) (t1 t2 : String) (v : ℚ)
    (h : corrLookup (generateMockCorrelation tickers draw) t1 t2 = some v) :
    -1 ≤ v ∧ v ≤ 1 := by
  refine corrInRange_mockCorrOuter tickers 0 [] ?_ t1 t2 v h
  intro a b w hw
  simp [corrLookup, objGet] at hw

/-- C5 witness: the theorem applied at a concrete input. -/
theorem generateMockCorrelation_range_witness :
    corrLookup (generateMockCorrelation ["A"] (fun _ _ => 0)) "A" "A" =
        some 1 ∧
      (-1 ≤ (1 : ℚ) ∧ (1 : ℚ) ≤ 1) :=
  ⟨by decide,
    generateMockCorrelation_range ["A"] (fun _ _ => 0) "A" "A" 1 (by decide)⟩

/-- C1 (code bug exhibit): on the ticker list [A, B] the generator writes
the pair correlation into the cell (A, B) but the row reset at the start of
the outer iteration for B erases the mirrored cell, so (B, A) is absent
from the produced matrix: the matrix is not symmetric. -/
theorem generateMockCorrelation_asymmetric_example :
    corrLookup (generateMockCorrelation ["A", "B"] (fun _ _ => 1 / 2)) "A" "B" =
        some (1 / 2) ∧
      corrLookup (generateMockCorrelation ["A", "B"] (fun _ _ => 1 / 2)) "B" "A" =
        none := by
  constructor <;>
    norm_num +decide [generateMockCorrelation, mockCorrOuter, mockCorrInner,
      mockCorrBody, setCell, corrLookup, objGet, objSet, boundedCorr, jsMin,
      jsMax]

/-! ## Home page submission (Home.jsx handleSubmit)

The submit handler parses the comma-separated ticker input, trims and
uppercases each piece, drops empty pieces, rejects an empty result with an
alert, and otherwise navigates to the results page with the query
parameters. -/

/-- The navigation target produced by a successful submission. -/
structure SubmitNav where
  tickers : List String
  startDate : String
  endDate : String
  interval : String
deriving DecidableEq

/-- Ticker parsing in handleSubmit: split on commas, trim and uppercase
each piece, keep the nonempty pieces. -/
def parseTickers (s : String) : List String :=
  ((jsSplitComma s).map (fun t => jsToUpperCase (jsTrim t))).filter
    (fun t => 0 < t.length)

/-- handleSubmit: none models the alert-and-return rejection, some models
navigation to the results page. -/
def handleSubmit (tickers startDate endDate interval : String) :
    Option SubmitNav :=
  let tickerList := parseTickers tickers
  if tickerList.length = 0 then none
  else some { tickers := tickerList, startDate := startDate,
              endDate := endDate, interval := interval }

theorem toUpper_not_isLower (c : Char) : (Char.toUpper c).isLower = false := by
  unfold Char.toUpper
  simp only []
  by_cases h : c.toNat ≥ 97 ∧ c.toNat ≤ 122
  · rw [if_pos h]
    obtain ⟨h1, h2⟩ := h
    set n := c.toNat with hn
    interval_cases n <;> decide
  · rw [if_neg h]
    rw [Char.isLower]
    have hthis : ¬(c.val ≥ 97 ∧ c.val ≤ 122) := by
      intro hc
      apply h
      obtain ⟨hc1, hc2⟩ := hc
      constructor
      · exact UInt32.le_toNat_of_le (by norm_num) hc1
      · exact UInt32.toNat_le_of_le (by norm_num) hc2
    simp only [ge_iff_le, Bool.and_eq_false_iff]
    by_contra hb
    simp only [not_or, Bool.not_eq_false, decide_eq_true_eq] at hb
    exact hthis ⟨hb.1, hb.2⟩

/-- C3 counterexample: the submitted ticker list is neither deduplicated
nor bounded by 10 symbols: eleven copies of the same ticker are accepted
and submitted verbatim. -/
theorem handleSubmit_accepts_duplicates_and_eleven :
    handleSubmit "a,a,a,a,a,a,a,a,a,a,a" "2025-11-01" "2025-11-20" "1d" =
        some { tickers := List.replicate 11 "A", startDate := "2025-11-01",
               endDate := "2025-11-20", interval := "1d" } ∧
      ¬(List.replicate 11 "A").Nodup ∧ 10 < (List.replicate 11 "A").length := by
  refine ⟨by decide, by decide, by decide⟩

/-- C3 (amended): every submitted request carries tickers that are
case-normalized to uppercase (no lowercase letter survives) and nonempty,
an empty parsed ticker list is rejected before any analysis is started, and
a successful submission carries exactly the parsed list and the given
dates and interval.  (No deduplication and no 1-10 size bound are
enforced.) -/
theorem handleSubmit_normalized (s sd ed iv : String) :
    (∀ t ∈ parseTickers s, 0 < t.length ∧ ∀ c ∈ t.data, c.isLower = false) ∧
      (handleSubmit s sd ed iv = none ↔ parseTickers s = []) ∧
      (∀ r, handleSubmit s sd ed iv = some r → r.tickers = parseTickers s ∧
        r.startDate = sd ∧ r.endDate = ed ∧ r.interval = iv) := by
  refine ⟨?_, ?_, ?_⟩
  · intro t ht
    obtain ⟨htm, htp⟩ := List.mem_filter.mp ht
    refine ⟨of_decide_eq_true htp, ?_⟩
    obtain ⟨x, _, hx⟩ := List.mem_map.mp htm
    intro c hc
    rw [← hx] at hc
    simp only [jsToUpperCase] at hc
    obtain ⟨c0, _, hc0⟩ := List.mem_map.mp hc
    rw [← hc0]
    exact toUpper_not_isLower c0
  · unfold handleSubmit
    by_cases h : (parseTickers s).length = 0
    · simp [h, List.length_eq_zero.mp h]
    · simp only [if_neg h]
      constructor
      · intro hh
        cases hh
      · intro hh
        exact absurd (by rw [hh]; rfl) h
  · intro r hr
    unfold handleSubmit at hr
    by_cases h : (parseTickers s).length = 0
    · rw [if_pos h] at hr
      cases hr
    · rw [if_neg h] at hr
      cases hr
      exact ⟨rfl, rfl, rfl, rfl⟩

/-- C3 witness: the amended theorem applied at a concrete input. -/
theorem handleSubmit_normalized_witness :
    handleSubmit "" "2025-11-01" "2025-11-20" "1d" = none ↔
      parseTickers "" = [] :=
  (handleSubmit_normalized "" "2025-11-01" "2025-11-20" "1d").2.1

/-! ## Correlation matrix component (CorrelationMatrix.jsx)

The component returns null when the matrix prop is null/undefined or fewer
than two tickers are given; otherwise it renders one table cell per ticker
pair, reading the coefficient with correlationMatrix[t1]?.[t2] ?? 0,
formatting it with toFixed(2) and colouring it by band. -/

/-- The colour band classes of getCorrelationColor. -/
inductive CorrBand
  | highPositive
  | moderatePositive
  | low
  | moderateNegative
  | highNegative
deriving DecidableEq

/-- getCorrelationColor: the band thresholds from the component. -/
def getCorrelationColor (v : ℚ) : CorrBand :=
  if v ≥ 7 / 10 then .highPositive
  else if v ≥ 3 / 10 then .moderatePositive
  else if v ≥ -(3 / 10) then .low
  else if v ≥ -(7 / 10) then .moderateNegative
  else .highNegative

/-- Two-digit decimal padding. -/
def pad2 (n : Nat) : String := if n < 10 then "0" ++ toString n else toString n

/-- Model of JS Number.prototype.toFixed(2) over the rationals: round the
magnitude to the nearest hundredth (halves up) and print two decimals. -/
def toFixed2 (q : ℚ) : String :=
  let m : Int := ⌊|q| * 100 + 1 / 2⌋
  (if q < 0 ∧ m ≠ 0 then "-" else "") ++ toString (m / 100) ++ "." ++
    pad2 (m % 100).toNat

/-- One rendered table cell: the printed text and the colour band. -/
structure RenderedCell where
  text : String
  band : CorrBand
deriving DecidableEq

/-- The cell the component renders for the pair (t1, t2): an absent entry
is defaulted to 0 by the ?? operator before formatting and colouring. -/
def renderCell (m : CorrMatrix) (t1 t2 : String) : RenderedCell :=
  let value := (corrLookup m t1 t2).getD 0
  { text := toFixed2 value, band := getCorrelationColor value }

/-- The CorrelationMatrix component: null when the matrix prop is absent or
fewer than two tickers are given, else the table of cells. -/
def correlationMatrixComponent (cm : Option CorrMatrix)
    (tickers : List String) : Option (List (List RenderedCell)) :=
  match cm with
  | none => none
  | some m =>
      if tickers.length < 2 then none
      else some (tickers.map (fun t1 => tickers.map (fun t2 => renderCell m t1 t2)))

example : toFixed2 0 = "0.00" := by
  norm_num [toFixed2, pad2]
  decide
example : getCorrelationColor 0 = .low := by norm_num [getCorrelationColor]

/-- C6: the CorrelationMatrix component renders nothing when it is given no
matrix or fewer than two tickers. -/
theorem correlationMatrixComponent_none (cm : Option CorrMatrix)
    (tickers : List String) (h : cm = none ∨ tickers.length < 2) :
    correlationMatrixComponent cm tickers = none := by
  rcases h with h | h
  · rw [h]
    rfl
  · cases cm with
    | none => rfl
    | some m =>
        simp only [correlationMatrixComponent]
        rw [if_pos h]

/-- C6 witness: the theorem applied at a concrete input. -/
theorem correlationMatrixComponent_none_witness :
    ((some ([] : CorrMatrix) = none ∨ (["A"] : List String).length < 2) ∧
      correlationMatrixComponent (some []) ["A"] = none) :=
  ⟨by decide, correlationMatrixComponent_none (some []) ["A"] (by decide)⟩

/-- C8: a ticker pair absent from the correlation-matrix object is rendered
as the numeric value 0: the text 0.00 in the low band, identical to the
cell rendered when the entry really is 0. -/
theorem renderCell_absent_is_zero (m : CorrMatrix) (t1 t2 : String)
    (h : corrLookup m t1 t2 = none) :
    renderCell m t1 t2 = { text := "0.00", band := CorrBand.low } ∧
      renderCell m t1 t2 = renderCell (setCell m t1 t2 0) t1 t2 := by
  have hv : (corrLookup m t1 t2).getD 0 = 0 := by rw [h]; rfl
  have hcell : renderCell m t1 t2 = { text := "0.00", band := CorrBand.low } := by
    have h1 : toFixed2 0 = "0.00" := by
      norm_num [toFixed2, pad2]
      decide
    have h2 : getCorrelationColor 0 = .low := by norm_num [getCorrelationColor]
    simp only [renderCell, hv, h1, h2]
  refine ⟨hcell, ?_⟩
  have hv2 : (corrLookup (setCell m t1 t2 0) t1 t2).getD 0 = 0 := by
    rw [corrLookup_setCell_self]
    rfl
  simp only [renderCell, hv, hv2]

/-- C8 witness: the theorem applied at a concrete input. -/
theorem renderCell_absent_is_zero_witness :
    corrLookup [] "A" "B" = none ∧
      (renderCell [] "A" "B" = { text := "0.00", band := CorrBand.low } ∧
        renderCell [] "A" "B" = renderCell (setCell [] "A" "B" 0) "A" "B") :=
  ⟨by decide, renderCell_absent_is_zero [] "A" "B" (by decide)⟩

/-! ## Results page data fetch (Results.jsx fetchData)

fetchData reads the query parameters, rejects invalid ones with an error
message before calling the backend, and otherwise calls analyzeStocks with
the parsed arguments. -/

/-- The query parameters of the results page; none models an absent
parameter (searchParams.get returning null). -/
structure ResultsQuery where
  tickersParam : Option String
  startDateParam : Option String
  endDateParam : Option String
  intervalParam : Option String

/-- JS falsiness of an optional string: null/undefined or the empty
string. -/
def strFalsy : Option String → Bool
  | none => true
  | some s => s = ""

/-- searchParams.get('tickers')?.split(',') || []: an absent parameter
yields the empty list, a present one is split on commas (the resulting
array is always truthy). -/
def parseQueryTickers : Option String → List String
  | none => []
  | some s => jsSplitComma s

/-- The arguments passed to analyzeStocks on the success path. -/
structure AnalyzeArgs where
  tickers : List String
  startDate : String
  endDate : String
  interval : String
deriving DecidableEq

/-- What fetchData did: the error it set, and the backend call it made
(none when no call was made). -/
structure FetchOutcome where
  error : Option String
  call : Option AnalyzeArgs
deriving DecidableEq

/-- The validation gate of fetchData: reject before any backend call when
the parsed ticker list is empty or either date parameter is falsy;
otherwise call analyzeStocks with the parsed arguments (the interval
parameter defaulting to 1d when falsy). -/
def fetchDataGate (q : ResultsQuery) : FetchOutcome :=
  let tickers := parseQueryTickers q.tickersParam
  let interval := if strFalsy q.intervalParam then "1d"
    else q.intervalParam.getD ""
  if tickers.length = 0 ∨ strFalsy q.startDateParam ∨ strFalsy q.endDateParam
  then { error := some "Invalid parameters", call := none }
  else { error := none,
         call := some { tickers := tickers,
                        startDate := q.startDateParam.getD "",
                        endDate := q.endDateParam.getD "",
                        interval := interval } }

/-- C7: a malformed request (empty parsed ticker list, or a missing start
or end date) is rejected with the validation error and the backend analyze
call is never made. -/
theorem fetchDataGate_rejects (q : ResultsQuery)
    (h : parseQueryTickers q.tickersParam = [] ∨ q.startDateParam = none ∨
      q.endDateParam = none) :
    fetchDataGate q = { error := some "Invalid parameters", call := none } := by
  unfold fetchDataGate
  rw [if_pos]
  rcases h with h | h | h
  · exact Or.inl (by rw [h]; rfl)
  · exact Or.inr (Or.inl (by rw [h]; rfl))
  · exact Or.inr (Or.inr (by rw [h]; rfl))

/-- C7 witness: the theorem applied at a concrete input. -/
theorem fetchDataGate_rejects_witness :
    (parseQueryTickers (ResultsQuery.mk none (some "2025-11-01")
        (some "2025-11-20") none).tickersParam = [] ∨
      (ResultsQuery.mk none (some "2025-11-01") (some "2025-11-20")
        none).startDateParam = none ∨
      (ResultsQuery.mk none (some "2025-11-01") (some "2025-11-20")
        none).endDateParam = none) ∧
    fetchDataGate (ResultsQuery.mk none (some "2025-11-01")
        (some "2025-11-20") none) =
      { error := some "Invalid parameters", call := none } :=
  ⟨by decide,
    fetchDataGate_rejects
      (ResultsQuery.mk none (some "2025-11-01") (some "2025-11-20") none)
      (by decide)⟩

/-! ## API service layer (services/api.js analyzeStocks) -/

/-- The date_range object of the POST body. -/
structure DateRange where
  start_date : String
  end_date : String
deriving DecidableEq

/-- The POST body of /api/analyze: exactly the fields tickers, date_range
and interval. -/
structure AnalyzeBody where
  tickers : List String
  date_range : DateRange
  interval : String
deriving DecidableEq

/-- The information the catch block reads off an axios error:
error.response?.status, error.response?.data?.detail, error.code, and
error.message. -/
structure AxiosError where
  status : Option Nat
  detail : Option String
  code : Option String
  message : String

/-- JS s || d for an optional string s: the default applies when s is
null/undefined or empty. -/
def firstTruthy : Option String → String → String
  | none, d => d
  | some s, d => if s = "" then d else s

/-- The message of the Error thrown by the catch block of analyzeStocks. -/
def analyzeErrorMessage (e : AxiosError) : String :=
  if e.status = some 503 then
    "Backend service unavailable. Please try again later."
  else if e.status = some 400 then
    firstTruthy e.detail "Invalid request parameters."
  else if e.code = some "ECONNREFUSED" then
    "Cannot connect to backend. Make sure the API server is running."
  else
    firstTruthy e.detail
      (if e.message = "" then "Failed to analyze stocks" else e.message)

/-- The request body analyzeStocks posts: the interval parameter defaults
to 1d when the caller omits it (JS default parameter value). -/
def buildAnalyzeBody (tickers : List String) (startDate endDate : String)
    (interval : Option String) : AnalyzeBody :=
  { tickers := tickers,
    date_range := { start_date := startDate, end_date := endDate },
    interval := interval.getD "1d" }

/-- analyzeStocks: post the body through the network (net), return the
response data on success, and on any failure throw an Error with the
translated message. -/
def analyzeStocks {ρ : Type} (tickers : List String) (startDate endDate : String)
    (interval : Option String) (net : AnalyzeBody → Except AxiosError ρ) :
    Except String ρ :=
  match net (buildAnalyzeBody tickers startDate endDate interval) with
  | .ok d => .ok d
  | .error e => .error (analyzeErrorMessage e)

/-- C10: every analyzeStocks call posts a body whose fields are exactly the
given tickers, the date range made of the two dates, and the interval
(defaulting to 1d when omitted); on any request failure it throws an Error
with the translated message, and it resolves with data only when the
request itself succeeded with that data (never a partial result). -/
theorem analyzeStocks_contract {ρ : Type} (tickers : List String)
    (sd ed : String) (interval : Option String)
    (net : AnalyzeBody → Except AxiosError ρ) :
    (buildAnalyzeBody tickers sd ed interval).tickers = tickers ∧
      (buildAnalyzeBody tickers sd ed interval).date_range =
        { start_date := sd, end_date := ed } ∧
      (buildAnalyzeBody tickers sd ed interval).interval =
        interval.getD "1d" ∧
      (interval = none → (buildAnalyzeBody tickers sd ed interval).interval =
        "1d") ∧
      (∀ e, net (buildAnalyzeBody tickers sd ed interval) = .error e →
        analyzeStocks tickers sd ed interval net =
          .error (analyzeErrorMessage e)) ∧
      (∀ d, analyzeStocks tickers sd ed interval net = .ok d →
        net (buildAnalyzeBody tickers sd ed interval) = .ok d) := by
  refine ⟨rfl, rfl, rfl, ?_, ?_, ?_⟩
  · intro h
    rw [h]
    rfl
  · intro e he
    unfold analyzeStocks
    rw [he]
  · intro d hd
    unfold analyzeStocks at hd
    cases hnet : net (buildAnalyzeBody tickers sd ed interval) with
    | ok d' => rw [hnet] at hd; cases hd; rfl
    | error e => rw [hnet] at hd; cases hd

/-- C10 witness: the theorem applied at a concrete input: a 503 failure
produces the service-unavailable error. -/
theorem analyzeStocks_contract_witness :
    analyzeStocks (ρ := Unit) ["AAPL"] "2024-01-01" "2024-02-01" none
        (fun _ => Except.error ⟨some 503, none, none, ""⟩) =
      Except.error "Backend service unavailable. Please try again later." := by
  have h := (analyzeStocks_contract (ρ := Unit) ["AAPL"] "2024-01-01"
    "2024-02-01" none
    (fun _ => Except.error ⟨some 503, none, none, ""⟩)).2.2.2.2.1
    ⟨some 503, none, none, ""⟩ rfl
  rw [h]
  rfl

/-! ## Cache Key Builder (modelled from the spec)

The backend analytics core (Normalizer, Metrics Calculator, Cache Key
Builder, Result Cache, Orchestrator) is not among the sources; only the
backend README and the specification describe it. -/

/-- An AnalysisRequest as the spec data model defines it. -/
structure AnalysisRequest where
  tickers : List String
  start_date : String
  end_date : String
  interval : String

/-- Modelled from the spec: the Cache Key Builder of the missing backend
core.  Spec 4.3: sort the normalized (uppercased, deduplicated) ticker
list, concatenate it with the date range and the interval into a canonical
string with explicit field order and separators. -/
def canonicalRequestString (r : AnalysisRequest) : String :=
  String.intercalate ","
      (List.insertionSort (· ≤ ·) (r.tickers.map jsToUpperCase).dedup) ++
    "|" ++ r.start_date ++ "|" ++ r.end_date ++ "|" ++ r.interval

/-- Modelled from the spec: the cache key is the stable hash of the
canonical string; the hash function is an arbitrary deterministic
parameter. -/
def cacheKey (hash : String → String) (r : AnalysisRequest) : String :=
  hash (canonicalRequestString r)

/-- C2: two AnalysisRequests that agree after normalization (the same set
of uppercased tickers regardless of supplied order, the same date range,
the same interval) receive the identical cache key, for any hash
function. -/
theorem cacheKey_deterministic (hash : String → String)
    (r1 r2 : AnalysisRequest)
    (htk : (r1.tickers.map jsToUpperCase).toFinset =
      (r2.tickers.map jsToUpperCase).toFinset)
    (hsd : r1.start_date = r2.start_date)
    (hed : r1.end_date = r2.end_date)
    (hiv : r1.interval = r2.interval) :
    cacheKey hash r1 = cacheKey hash r2 := by
  have hperm : List.Perm (r1.tickers.map jsToUpperCase).dedup
      (r2.tickers.map jsToUpperCase).dedup :=
    List.toFinset_eq_iff_perm_dedup.mp htk
  have hsort : List.insertionSort (· ≤ ·)
        (r1.tickers.map jsToUpperCase).dedup =
      List.insertionSort (· ≤ ·) (r2.tickers.map jsToUpperCase).dedup := by
    refine List.eq_of_perm_of_sorted
      (((List.perm_insertionSort _ _).trans hperm).trans
        (List.perm_insertionSort _ _).symm)
      (List.sorted_insertionSort _ _) (List.sorted_insertionSort _ _)
  unfold cacheKey canonicalRequestString
  rw [hsort, hsd, hed, hiv]

/-- C2 witness: the theorem applied at the spec's own example inputs. -/
theorem cacheKey_deterministic_witness :
    ((["MSFT", "AAPL"].map jsToUpperCase).toFinset =
        (["AAPL", "MSFT"].map jsToUpperCase).toFinset) ∧
      cacheKey id ⟨["MSFT", "AAPL"], "2024-10-01", "2024-11-01", "1d"⟩ =
        cacheKey id ⟨["AAPL", "MSFT"], "2024-10-01", "2024-11-01", "1d"⟩ :=
  ⟨by decide,
    cacheKey_deterministic id
      ⟨["MSFT", "AAPL"], "2024-10-01", "2024-11-01", "1d"⟩
      ⟨["AAPL", "MSFT"], "2024-10-01", "2024-11-01", "1d"⟩
      (by decide) rfl rfl rfl⟩

/-! ## Chart data transformation (Results.jsx transformDataForCharts)

The transform combines the per-ticker historical series into one array of
per-date points keyed by date, assigning each ticker's close under the
ticker name and its volume under ticker + "_volume", sorts the points by
date (localeCompare on ISO dates is the lexicographic string order), and
reuses the very same array for volumeData. -/

/-- One point of a ticker's historical series in the backend response. -/
structure HistPoint where
  date : String
  close : ℚ
  volume : ℚ
deriving DecidableEq

/-- One combined chart point: the date property and the per-ticker fields
the loop assigns on it. -/
structure ChartPoint where
  date : String
  fields : Obj ℚ
deriving DecidableEq

/-- Processing one historical point of ticker t: get or create the entry
of its date in the Map, then assign the close under the ticker name and
the volume under ticker + "_volume" on it. -/
def addHistPoint (t : String) (m : Obj ChartPoint) (p : HistPoint) :
    Obj ChartPoint :=
  let cp := (objGet m p.date).getD { date := p.date, fields := [] }
  objSet m p.date
    { cp with
      fields := objSet (objSet cp.fields t p.close) (t ++ "_volume") p.volume }

/-- The date map built by the nested forEach over the tickers and their
series (historical_data[ticker] || [] is the total function hist). -/
def buildDateMap (hist : String → List HistPoint) (tickers : List String) :
    Obj ChartPoint :=
  tickers.foldl (fun m t => (hist t).foldl (addHistPoint t) m) []

/-- The order induced by the sort comparator
(a, b) => a.date.localeCompare(b.date). -/
def chartLe (a b : ChartPoint) : Prop := a.date ≤ b.date

instance : DecidableRel chartLe := fun a b =>
  inferInstanceAs (Decidable (a.date ≤ b.date))

instance : IsTotal ChartPoint chartLe :=
  ⟨fun a b => le_total a.date b.date⟩

instance : IsTrans ChartPoint chartLe :=
  ⟨fun _ _ _ hab hbc => le_trans hab hbc⟩

/-- The chart arrays transformDataForCharts returns (the metrics,
correlation matrix, tickers and cached flag are passed through
unchanged). -/
structure ChartData where
  priceData : List ChartPoint
  volumeData : List ChartPoint
deriving DecidableEq

/-- transformDataForCharts: with no historical_data both chart arrays are
empty; otherwise the date map values are sorted by date and volumeData is
the same array as priceData. -/
def transformDataForCharts (hist : Option (String → List HistPoint))
    (tickers : List String) : ChartData :=
  match hist with
  | none => { priceData := [], volumeData := [] }
  | some h =>
      let priceData :=
        List.insertionSort chartLe (objValues (buildDateMap h tickers))
      { priceData := priceData, volumeData := priceData }

/-- Reading the field k of the date-d entry, with the absent entry reading
as the freshly created empty point. -/
def fieldAt (m : Obj ChartPoint) (d k : String) : Option ℚ :=
  objGet ((objGet m d).getD { date := d, fields := [] }).fields k

theorem objGet_mem (m : Obj α) (k : String) (v : α)
    (h : objGet m k = some v) : (k, v) ∈ m := by
  induction m with
  | nil => simp [objGet] at h
  | cons hd tl ih =>
      obtain ⟨k', v'⟩ := hd
      by_cases hk : k' = k
      · subst hk
        rw [objGet, if_pos rfl] at h
        cases h
        exact List.mem_cons_self _ _
      · rw [objGet, if_neg hk] at h
        exact List.mem_cons_of_mem _ (ih h)

theorem mem_objSet_cases (m : Obj α) (k a : String) (v w : α)
    (h : (a, w) ∈ objSet m k v) : (a, w) = (k, v) ∨ (a, w) ∈ m := by
  induction m with
  | nil =>
      rw [objSet] at h
      rcases List.mem_cons.mp h with h | h
      · exact Or.inl h
      · simp at h
  | cons hd tl ih =>
      obtain ⟨k', v'⟩ := hd
      by_cases hk : k' = k
      · subst hk
        rw [objSet, if_pos rfl] at h
        rcases List.mem_cons.mp h with h | h
        · exact Or.inl h
        · exact Or.inr (List.mem_cons_of_mem _ h)
      · rw [objSet, if_neg hk] at h
        rcases List.mem_cons.mp h with h | h
        · exact Or.inr (h ▸ List.mem_cons_self _ _)
        · rcases ih h with h2 | h2
          · exact Or.inl h2
          · exact Or.inr (List.mem_cons_of_mem _ h2)

/-- Well-formedness of the date map: every entry's date property equals
its key, and the keys are unique. -/
def dateMapWF (m : Obj ChartPoint) : Prop :=
  (∀ pr ∈ m, (Prod.snd pr).date = Prod.fst pr) ∧ (objKeys m).Nodup

theorem dateMapWF_addHistPoint (t : String) (m : Obj ChartPoint)
    (p : HistPoint) (h : dateMapWF m) : dateMapWF (addHistPoint t m p) := by
  obtain ⟨hdates, hnd⟩ := h
  constructor
  · intro pr hpr
    obtain ⟨a, cp⟩ := pr
    rcases mem_objSet_cases m p.date a _ cp hpr with h2 | h2
    · rw [Prod.mk.injEq] at h2
      obtain ⟨h2a, h2b⟩ := h2
      subst h2a
      subst h2b
      cases he : objGet m p.date with
      | none => simp [he]
      | some cp0 =>
          simpa [he] using hdates (p.date, cp0) (objGet_mem m p.date cp0 he)
    · exact hdates _ h2
  · exact objKeys_nodup_objSet m p.date _ hnd

theorem objGet_addHistPoint_ne (t : String) (m : Obj ChartPoint)
    (p : HistPoint) (d : String) (hd : d ≠ p.date) :
    objGet (addHistPoint t m p) d = objGet m d :=
  objGet_objSet_ne m _ hd

theorem objGet_foldl_series_ne (t : String) :
    ∀ (pts : List HistPoint) (m : Obj ChartPoint) (d : String),
      (∀ p ∈ pts, p.date ≠ d) →
      objGet (pts.foldl (addHistPoint t) m) d = objGet m d
  | [], _, _, _ => rfl
  | q :: rest, m, d, h => by
      rw [List.foldl_cons,
        objGet_foldl_series_ne t rest _ d (fun p hp => h p (List.mem_cons_of_mem _ hp)),
        objGet_addHistPoint_ne t m q d (fun hh => h q (List.mem_cons_self _ _) hh.symm)]

theorem mem_objKeys_addHistPoint (t : String) (m : Obj ChartPoint)
    (p : HistPoint) (a : String) :
    a ∈ objKeys (addHistPoint t m p) ↔ a = p.date ∨ a ∈ objKeys m :=
  mem_objKeys_objSet m p.date a _

theorem mem_objKeys_foldl_series (t : String) :
    ∀ (pts : List HistPoint) (m : Obj ChartPoint) (a : String),
      a ∈ objKeys (pts.foldl (addHistPoint t) m) ↔
        a ∈ objKeys m ∨ ∃ p ∈ pts, p.date = a
  | [], m, a => by simp
  | q :: rest, m, a => by
      rw [List.foldl_cons, mem_objKeys_foldl_series t rest _ a]
      rw [mem_objKeys_addHistPoint t m q a]
      constructor
      · rintro ((h | h) | h)
        · exact Or.inr ⟨q, List.mem_cons_self _ _, h.symm⟩
        · exact Or.inl h
        · obtain ⟨p, hp, hpa⟩ := h
          exact Or.inr ⟨p, List.mem_cons_of_mem _ hp, hpa⟩
      · rintro (h | h)
        · exact Or.inl (Or.inr h)
        · obtain ⟨p, hp, hpa⟩ := h
          rcases List.mem_cons.mp hp with h2 | h2
          · exact Or.inl (Or.inl (h2 ▸ hpa).symm)
          · exact Or.inr ⟨p, h2, hpa⟩

theorem dateMapWF_foldl_series (t : String) :
    ∀ (pts : List HistPoint) (m : Obj ChartPoint), dateMapWF m →
      dateMapWF (pts.foldl (addHistPoint t) m)
  | [], _, h => h
  | q :: rest, m, h =>
      dateMapWF_foldl_series t rest _ (dateMapWF_addHistPoint t m q h)

theorem fieldAt_of_objGet {m : Obj ChartPoint} {d : String}
    {cp : ChartPoint} (h : objGet m d = some cp) (k : String) :
    fieldAt m d k = objGet cp.fields k := by
  unfold fieldAt
  rw [h]
  rfl

theorem ne_append_of_ne_empty (u w : String) (hw : w.data ≠ []) :
    u ≠ u ++ w := by
  intro he
  have hlen := congrArg String.length he
  rw [String.length_append] at hlen
  have : w.length = 0 := by omega
  rw [String.length] at this
  exact hw (List.length_eq_zero.mp this)

theorem self_ne_self_append_volume (u : String) : u ≠ u ++ "_volume" :=
  ne_append_of_ne_empty u "_volume" (by decide)

theorem append_volume_right_cancel {u t : String}
    (h : u ++ "_volume" = t ++ "_volume") : u = t := by
  have hd := congrArg String.data h
  have hda : ∀ a b : String, (a ++ b).data = a.data ++ b.data := by
    intro a b
    rfl
  rw [hda, hda] at hd
  exact String.ext (List.append_cancel_right hd)

theorem fieldAt_addHistPoint_ne (t : String) (m : Obj ChartPoint)
    (p : HistPoint) (d k : String) (hk1 : k ≠ t) (hk2 : k ≠ t ++ "_volume") :
    fieldAt (addHistPoint t m p) d k = fieldAt m d k := by
  by_cases hd : d = p.date
  · subst hd
    unfold fieldAt addHistPoint
    rw [objGet_objSet_self]
    simp only [Option.getD_some]
    rw [objGet_objSet_ne _ _ hk2, objGet_objSet_ne _ _ hk1]
  · unfold fieldAt
    rw [objGet_addHistPoint_ne t m p d hd]

theorem fieldAt_foldl_series_ne (t : String) (k : String) (hk1 : k ≠ t)
    (hk2 : k ≠ t ++ "_volume") :
    ∀ (pts : List HistPoint) (m : Obj ChartPoint) (d : String),
      fieldAt (pts.foldl (addHistPoint t) m) d k = fieldAt m d k
  | [], _, _ => rfl
  | q :: rest, m, d => by
      rw [List.foldl_cons, fieldAt_foldl_series_ne t k hk1 hk2 rest _ d,
        fieldAt_addHistPoint_ne t m q d k hk1 hk2]

/-- Processing one series establishes, for each of its points, the close
and volume fields of the point's date entry. -/
theorem fieldAt_series_establish (u : String) :
    ∀ (pts : List HistPoint) (m : Obj ChartPoint),
      (pts.map HistPoint.date).Nodup →
      ∀ p ∈ pts,
        fieldAt (pts.foldl (addHistPoint u) m) p.date u = some p.close ∧
          fieldAt (pts.foldl (addHistPoint u) m) p.date (u ++ "_volume") =
            some p.volume
  | [], _, _, p, hp => absurd hp (List.not_mem_nil p)
  | q :: rest, m, hnd, p, hp => by
      rw [List.map_cons, List.nodup_cons] at hnd
      obtain ⟨hq, hrest⟩ := hnd
      rcases List.mem_cons.mp hp with hpq | hpr
      · subst hpq
        rw [List.foldl_cons]
        have huntouched : ∀ k, fieldAt (rest.foldl (addHistPoint u)
            (addHistPoint u m p)) p.date k =
            fieldAt (addHistPoint u m p) p.date k := by
          intro k
          unfold fieldAt
          rw [objGet_foldl_series_ne u rest _ p.date
            (fun r hr hrd => hq (hrd ▸ List.mem_map.mpr ⟨r, hr, rfl⟩))]
        have hface : fieldAt (addHistPoint u m p) p.date u = some p.close ∧
            fieldAt (addHistPoint u m p) p.date (u ++ "_volume") =
              some p.volume := by
          unfold fieldAt addHistPoint
          rw [objGet_objSet_self]
          simp only [Option.getD_some]
          constructor
          · rw [objGet_objSet_ne _ _ (self_ne_self_append_volume u),
              objGet_objSet_self]
          · rw [objGet_objSet_self]
        exact ⟨by rw [huntouched, hface.1], by rw [huntouched, hface.2]⟩
      · rw [List.foldl_cons]
        exact fieldAt_series_establish u rest _ hrest p hpr

theorem fieldAt_fold_tickers_ne (hist : String → List HistPoint) (k : String) :
    ∀ (l : List String) (m : Obj ChartPoint) (d : String),
      (∀ t ∈ l, k ≠ t ∧ k ≠ t ++ "_volume") →
      fieldAt (l.foldl (fun acc t => (hist t).foldl (addHistPoint t) acc) m) d k =
        fieldAt m d k
  | [], _, _, _ => rfl
  | u :: rest, m, d, hl => by
      rw [List.foldl_cons,
        fieldAt_fold_tickers_ne hist k rest _ d
          (fun t ht => hl t (List.mem_cons_of_mem _ ht)),
        fieldAt_foldl_series_ne u k (hl u (List.mem_cons_self _ _)).1
          (hl u (List.mem_cons_self _ _)).2 (hist u) m d]

theorem mem_objKeys_fold_tickers (hist : String → List HistPoint) :
    ∀ (l : List String) (m : Obj ChartPoint) (a : String),
      a ∈ objKeys (l.foldl (fun acc t => (hist t).foldl (addHistPoint t) acc) m) ↔
        a ∈ objKeys m ∨ ∃ t ∈ l, ∃ p ∈ hist t, p.date = a
  | [], m, a => by simp
  | u :: rest, m, a => by
      rw [List.foldl_cons, mem_objKeys_fold_tickers hist rest _ a,
        mem_objKeys_foldl_series u (hist u) m a]
      constructor
      · rintro ((h | h) | h)
        · exact Or.inl h
        · exact Or.inr ⟨u, List.mem_cons_self _ _, h⟩
        · obtain ⟨t, ht, hp⟩ := h
          exact Or.inr ⟨t, List.mem_cons_of_mem _ ht, hp⟩
      · rintro (h | h)
        · exact Or.inl (Or.inl h)
        · obtain ⟨t, ht, hp⟩ := h
          rcases List.mem_cons.mp ht with h2 | h2
          · exact Or.inl (Or.inr (h2 ▸ hp))
          · exact Or.inr ⟨t, h2, hp⟩

theorem dateMapWF_fold_tickers (hist : String → List HistPoint) :
    ∀ (l : List String) (m : Obj ChartPoint), dateMapWF m →
      dateMapWF (l.foldl (fun acc t => (hist t).foldl (addHistPoint t) acc) m)
  | [], _, h => h
  | u :: rest, m, h =>
      dateMapWF_fold_tickers hist rest _
        (dateMapWF_foldl_series u (hist u) m h)

/-- The per-ticker fields of every date entry after the whole nested
fold. -/
theorem buildDateMap_fields (hist : String → List HistPoint) :
    ∀ (l : List String) (m : Obj ChartPoint),
      l.Nodup →
      (∀ t ∈ l, ((hist t).map HistPoint.date).Nodup) →
      (∀ t1 ∈ l, ∀ t2 ∈ l, t1 ≠ t2 ++ "_volume") →
      ∀ t ∈ l, ∀ p ∈ hist t,
        fieldAt (l.foldl (fun acc t' => (hist t').foldl (addHistPoint t') acc) m)
            p.date t = some p.close ∧
          fieldAt (l.foldl (fun acc t' => (hist t').foldl (addHistPoint t') acc) m)
            p.date (t ++ "_volume") = some p.volume
  | [], _, _, _, _, t, ht, _, _ => absurd ht (List.not_mem_nil t)
  | u :: rest, m, hnodup, hnd, hvol, t, ht, p, hp => by
      rw [List.nodup_cons] at hnodup
      obtain ⟨hu, hrestnd⟩ := hnodup
      rcases List.mem_cons.mp ht with htu | htr
      · subst htu
        rw [List.foldl_cons]
        have hest := fieldAt_series_establish t (hist t) m
          (hnd t (List.mem_cons_self _ _)) p hp
        constructor
        · rw [fieldAt_fold_tickers_ne hist t rest _ p.date ?_]
          · exact hest.1
          · intro t2 ht2
            refine ⟨fun he => hu (he ▸ ht2), ?_⟩
            exact hvol t (List.mem_cons_self _ _) t2 (List.mem_cons_of_mem _ ht2)
        · rw [fieldAt_fold_tickers_ne hist (t ++ "_volume") rest _ p.date ?_]
          · exact hest.2
          · intro t2 ht2
            constructor
            · intro he
              exact hvol t2 (List.mem_cons_of_mem _ ht2) t
                (List.mem_cons_self _ _) he.symm
            · intro he
              exact hu (append_volume_right_cancel he ▸ ht2)
      · rw [List.foldl_cons]
        exact buildDateMap_fields hist rest _ hrestnd
          (fun t' ht' => hnd t' (List.mem_cons_of_mem _ ht'))
          (fun t1 h1 t2 h2 => hvol t1 (List.mem_cons_of_mem _ h1) t2
            (List.mem_cons_of_mem _ h2))
          t htr p hp

theorem objGet_of_mem_objValues (m : Obj ChartPoint) (hwf : dateMapWF m)
    (cp : ChartPoint) (h : cp ∈ objValues m) : objGet m cp.date = some cp := by
  obtain ⟨pr, hpr, hsnd⟩ := List.mem_map.mp h
  have hk : cp.date = pr.1 := by
    rw [← hsnd]
    exact hwf.1 pr hpr
  have hmem : (pr.1, cp) ∈ m := by
    have hpr2 : pr = (pr.1, cp) := by
      rw [Prod.ext_iff]
      exact ⟨rfl, hsnd⟩
    rw [← hpr2]
    exact hpr
  rw [hk]
  exact objGet_eq_some_of_mem m pr.1 cp hwf.2 hmem

/-- C9: for a backend response with historical_data (well-formed per the
spec data model: deduplicated tickers, unique dates within each series, and
ticker names that do not collide with volume keys), the transform returns
one point per distinct date occurring in any listed ticker's series, in
ascending date order, each point holding each present ticker's close under
the ticker name and its volume under ticker + "_volume"; volumeData is the
identical array. -/
theorem transformDataForCharts_spec (hist : String → List HistPoint)
    (tickers : List String) (htk : tickers.Nodup)
    (hnd : ∀ t ∈ tickers, ((hist t).map HistPoint.date).Nodup)
    (hvol : ∀ t1 ∈ tickers, ∀ t2 ∈ tickers, t1 ≠ t2 ++ "_volume") :
    (transformDataForCharts (some hist) tickers).volumeData =
        (transformDataForCharts (some hist) tickers).priceData ∧
      ((transformDataForCharts (some hist) tickers).priceData.map
        ChartPoint.date).Nodup ∧
      List.Pairwise (· ≤ ·)
        ((transformDataForCharts (some hist) tickers).priceData.map
          ChartPoint.date) ∧
      (∀ d, d ∈ (transformDataForCharts (some hist) tickers).priceData.map
          ChartPoint.date ↔ ∃ t ∈ tickers, ∃ p ∈ hist t, p.date = d) ∧
      (∀ cp ∈ (transformDataForCharts (some hist) tickers).priceData,
        ∀ t ∈ tickers, ∀ p ∈ hist t, p.date = cp.date →
          objGet cp.fields t = some p.close ∧
            objGet cp.fields (t ++ "_volume") = some p.volume) := by
  have hM : buildDateMap hist tickers =
      tickers.foldl (fun acc t => (hist t).foldl (addHistPoint t) acc) [] := rfl
  have hwfE : dateMapWF ([] : Obj ChartPoint) := ⟨by simp, by simp [objKeys]⟩
  have hwf : dateMapWF (buildDateMap hist tickers) := by
    rw [hM]
    exact dateMapWF_fold_tickers hist tickers [] hwfE
  have htrans : transformDataForCharts (some hist) tickers =
      { priceData := List.insertionSort chartLe
          (objValues (buildDateMap hist tickers)),
        volumeData := List.insertionSort chartLe
          (objValues (buildDateMap hist tickers)) } := rfl
  have hperm : List.Perm
      (List.insertionSort chartLe (objValues (buildDateMap hist tickers)))
      (objValues (buildDateMap hist tickers)) := List.perm_insertionSort _ _
  have hdk : (objValues (buildDateMap hist tickers)).map ChartPoint.date =
      objKeys (buildDateMap hist tickers) := by
    unfold objValues objKeys
    rw [List.map_map]
    exact List.map_congr_left (fun pr hpr => hwf.1 pr hpr)
  rw [htrans]
  refine ⟨rfl, ?_, ?_, ?_, ?_⟩
  · exact (List.Perm.nodup_iff (hperm.map ChartPoint.date)).mpr
      (hdk ▸ hwf.2)
  · have hs : List.Pairwise chartLe (List.insertionSort chartLe
        (objValues (buildDateMap hist tickers))) :=
      List.sorted_insertionSort chartLe _
    exact List.pairwise_map.mpr (hs.imp (fun h => h))
  · intro d
    rw [List.Perm.mem_iff (hperm.map ChartPoint.date), hdk, hM,
      mem_objKeys_fold_tickers hist tickers [] d]
    simp [objKeys]
  · intro cp hcp t ht p hp hpd
    have hcpv : cp ∈ objValues (buildDateMap hist tickers) :=
      (List.Perm.mem_iff hperm).mp hcp
    have hget := objGet_of_mem_objValues _ hwf cp hcpv
    have hfa := buildDateMap_fields hist tickers [] htk hnd hvol t ht p hp
    rw [← hM] at hfa
    rw [hpd] at hfa
    rw [fieldAt_of_objGet hget t, fieldAt_of_objGet hget (t ++ "_volume")] at hfa
    exact hfa

/-- C9 witness: the theorem applied at a concrete backend response. -/
theorem transformDataForCharts_spec_witness :
    ((["A", "B"] : List String).Nodup ∧
      (∀ t ∈ (["A", "B"] : List String),
        (((fun t => if t = "A" then
            [HistPoint.mk "2024-01-02" 10 100, HistPoint.mk "2024-01-03" 11 110]
          else if t = "B" then [HistPoint.mk "2024-01-02" 20 200] else []) t).map
            HistPoint.date).Nodup) ∧
      (∀ t1 ∈ (["A", "B"] : List String), ∀ t2 ∈ (["A", "B"] : List String),
        t1 ≠ t2 ++ "_volume")) ∧
    (transformDataForCharts
        (some (fun t => if t = "A" then
            [HistPoint.mk "2024-01-02" 10 100, HistPoint.mk "2024-01-03" 11 110]
          else if t = "B" then [HistPoint.mk "2024-01-02" 20 200] else []))
        ["A", "B"]).volumeData =
      (transformDataForCharts
        (some (fun t => if t = "A" then
            [HistPoint.mk "2024-01-02" 10 100, HistPoint.mk "2024-01-03" 11 110]
          else if t = "B" then [HistPoint.mk "2024-01-02" 20 200] else []))
        ["A", "B"]).priceData :=
  ⟨⟨by decide, by decide, by decide⟩,
    (transformDataForCharts_spec
      (fun t => if t = "A" then
          [HistPoint.mk "2024-01-02" 10 100, HistPoint.mk "2024-01-03" 11 110]
        else if t = "B" then [HistPoint.mk "2024-01-02" 20 200] else [])
      ["A", "B"] (by decide) (by decide) (by decide)).1⟩
